import Mathlib

/-!
Verification of `rayon-par-bridge` (src/lib.rs).

The crate exposes a single function:

  pub fn par_bridge<I, F, R>(bound: usize, iter: I, f: F) -> R {
      std::thread::scope(|s| {
          let (send, recv) = mpsc::sync_channel(bound);
          s.spawn(move || iter.into_par_iter().try_for_each(|x| send.send(x).ok()));
          f(RayonIntoIter(recv.into_iter()))
      })
  }

together with the adapter

  pub struct RayonIntoIter<T>(IntoIter<T>);
  impl<T> Iterator for RayonIntoIter<T> { fn next(&mut self) -> Option<T> { self.0.next() } }

We embed the call as a small-step interleaved transition system over an
explicit state: the remaining items of the parallel pipeline (in their
nondeterministic arrival order), the bounded channel buffer of
`mpsc::sync_channel(bound)`, the flags recording that the producer thread
has ended (sender dropped), that the per-item work panicked, that a
`send` returned `Err(SendError)`, and the state of the consumer closure
`f`.  The consumer closure is embedded as the family of pull-and-collect
consumers used throughout the spec: it pulls items from the
`RayonIntoIter` adapter, accumulating them, until either an optional
limit `k` of pulled items is reached (early termination, "take k") or the
adapter yields `None` (full drain), and then returns `g` applied to the
collected list, for an arbitrary function `g`.

Parallel nondeterminism is captured by quantifying over the arrival order
of the items at the single sender (an arbitrary permutation of the
source) and over all interleavings of producer and consumer steps
(reachability under the step relation).  A per-item panic is embedded as
a `none` entry in the arrival list: reaching it makes the producer thread
unwind, which drops the sender; `std::thread::scope` then re-raises the
panic to the caller after both the closure and the spawned thread have
finished, which is modelled by the `Except` result of `bridgeReturn`.
-/

namespace RayonParBridge

/-- State of the consumer closure `f`: an optional limit on how many items
it pulls before returning (`none` = drain the adapter to exhaustion, as in
`seq_iter.collect()`; `some k` = stop after `k` items, early termination),
the list of items received so far from the `RayonIntoIter` adapter, and
whether `f` has returned (at which point its `RayonIntoIter`, hence the
channel receiver, is dropped). -/
structure ConsState (m : Type) where
  limit : Option Nat
  acc : List m
  finished : Bool
deriving Repr, DecidableEq

/-- Global state of one call to `par_bridge`.  `toSend` is the remainder of
the parallel pipeline in arrival order at the single logical sender; a
`none` entry is an item whose per-item computation panics when the
pipeline reaches it.  `buffer` is the FIFO buffer of
`mpsc::sync_channel(bound)`.  `producerDone` records that the spawned
thread has ended (so the sender has been dropped and the channel
disconnects once `buffer` drains); `panicked` that it ended by unwinding;
`sendFailed` that some `send` returned `Err` because the receiver was
dropped. -/
structure State (m : Type) where
  bound : Nat
  toSend : List (Option m)
  producerDone : Bool
  panicked : Bool
  sendFailed : Bool
  buffer : List m
  cons : ConsState m
deriving Repr, DecidableEq

/-- The state at the start of the call, mirroring lines 50-53 of
src/lib.rs: the channel is created empty with capacity `bound`, the
spawned producer still has the whole pipeline to drive, and the consumer
closure `f` is invoked with the fresh adapter, having received nothing. -/
def initState (bound : Nat) (order : List (Option m)) (lim : Option Nat) : State m :=
  { bound := bound
    toSend := order
    producerDone := false
    panicked := false
    sendFailed := false
    buffer := []
    cons := { limit := lim, acc := [], finished := false } }

/-- One step of the spawned producer thread
`iter.into_par_iter().try_for_each(|x| send.send(x).ok())` (line 52).
`none` means the thread cannot act (it has already ended, or its `send`
blocks because the buffer of `sync_channel(bound)` is full).  If the
pipeline is exhausted, `try_for_each` returns and the thread ends,
dropping the sender.  If the next item's computation panics, the thread
unwinds (dropping the sender) and `thread::scope` will re-raise the
panic.  Otherwise `send(x)` is attempted: if the receiver has been
dropped it returns `Err`, `.ok()` turns that into `None`, and
`try_for_each` short-circuits, so the thread ends without requesting
further items; if there is buffer space the item is enqueued FIFO.
(For `bound = 0`, the rendezvous handoff is performed by the receiving
side, see `adapterNext`.) -/
def prodStep (s : State m) : Option (State m) :=
  if s.producerDone then none
  else
    match s.toSend with
    | [] => some { s with producerDone := true }
    | none :: _ => some { s with producerDone := true, panicked := true }
    | some x :: rest =>
      if s.cons.finished then
        some { s with producerDone := true, sendFailed := true }
      else if s.buffer.length < s.bound then
        some { s with toSend := rest, buffer := s.buffer ++ [x] }
      else none

/-- One call to `RayonIntoIter::next` (lines 60-66), i.e. `recv()` on the
channel: `some (some x, s')` means the call returns item `x`,
`some (none, s')` means it returns `None` because the sender has been
dropped and the buffer is empty (channel disconnected), and `none` means
the call blocks (no item available yet and the producer is still alive).
With `bound = 0` the channel is a rendezvous channel: a waiting receiver
takes the producer's next item directly (no buffering). -/
def adapterNext (s : State m) : Option (Option m × State m) :=
  match s.buffer with
  | x :: rest => some (some x, { s with buffer := rest })
  | [] =>
    if s.producerDone then some (none, s)
    else if s.bound = 0 then
      match s.toSend with
      | some x :: rest => some (some x, { s with toSend := rest })
      | _ => none
    else none

/-- Whether the consumer closure stops pulling: with limit `some k` it
returns as soon as it has collected `k` items. -/
def limitReached (c : ConsState m) : Bool :=
  match c.limit with
  | some k => decide (k ≤ c.acc.length)
  | none => false

/-- One step of the consumer closure `f` running on the calling thread
(line 53): if it already returned it does nothing; if its limit is
reached it returns, dropping the `RayonIntoIter` and hence the receiver;
otherwise it calls `next()` on the adapter, collecting a received item,
returning upon `None`, or blocking while the channel is empty and the
producer is alive. -/
def consStep (s : State m) : Option (State m) :=
  if s.cons.finished then none
  else if limitReached s.cons then
    some { s with cons := { s.cons with finished := true } }
  else
    match adapterNext s with
    | some (some x, s') => some { s' with cons := { s'.cons with acc := s'.cons.acc ++ [x] } }
    | some (none, s') => some { s' with cons := { s'.cons with finished := true } }
    | none => none

/-- The call has finished: the consumer closure has returned and the
spawned producer thread has been joined by `thread::scope` (line 50
guarantees both before `par_bridge` returns). -/
def isTerminal (s : State m) : Bool :=
  s.producerDone && s.cons.finished

/-- The value `par_bridge` hands back to its caller once `thread::scope`
exits: the scope re-raises a panic captured from the spawned thread
(modelled as `Except.error ()`), and otherwise returns what the closure
`f` returned, namely `g` applied to the items the consumer collected. -/
def bridgeReturn (g : List m → r) (s : State m) : Except Unit r :=
  if s.panicked then Except.error () else Except.ok (g s.cons.acc)

/-- Interleaving: a step of the running call is a step of the producer
thread or a step of the calling (consumer) thread. -/
def StepRel (s s' : State m) : Prop :=
  prodStep s = some s' ∨ consStep s = some s'

/-- All states reachable during the call, under every interleaving of the
two threads. -/
def Reach (s s' : State m) : Prop :=
  Relation.ReflTransGen StepRel s s'

/-- A canonical scheduler: step the producer if it can act, otherwise the
consumer, otherwise stop. -/
def step1 (s : State m) : Option (State m) :=
  match prodStep s with
  | some s' => some s'
  | none => consStep s

/-- Run the canonical scheduler for at most `n` steps. -/
def runAuto : Nat → State m → State m
  | 0, s => s
  | Nat.succ n, s =>
    match step1 s with
    | some s' => runAuto n s'
    | none => s

/-- Variant measure: every enabled step of either thread strictly
decreases it, so every execution of the call takes at most
`meas (initState ...)` steps. -/
def meas (s : State m) : Nat :=
  (if s.producerDone then 0 else 1) + (if s.cons.finished then 0 else 1)
    + 3 * s.toSend.length + 2 * s.buffer.length

/-- The whole call with the canonical scheduler: run to completion and
return what `thread::scope` returns, mirroring `par_bridge` in
src/lib.rs lines 45-55.  `order` is the arrival order of the parallel
pipeline's items, `lim` and `g` describe the consumer closure. -/
def par_bridge (bound : Nat) (order : List (Option m)) (lim : Option Nat)
    (g : List m → r) : Except Unit r :=
  bridgeReturn g (runAuto (meas (initState bound order lim)) (initState bound order lim))

/-- Characterization of an enabled producer step: exactly one of the four
actions of line 52 happened (pipeline exhausted, per-item panic, send
failure on a dropped receiver, or a successful buffered send). -/
theorem prodStep_spec {s s' : State m} (h : prodStep s = some s') :
    s.producerDone = false ∧
    ((s.toSend = [] ∧ s' = { s with producerDone := true })
      ∨ (∃ rest, s.toSend = none :: rest ∧
            s' = { s with producerDone := true, panicked := true })
      ∨ (∃ x rest, s.toSend = some x :: rest ∧ s.cons.finished = true ∧
            s' = { s with producerDone := true, sendFailed := true })
      ∨ (∃ x rest, s.toSend = some x :: rest ∧ s.cons.finished = false ∧
            s.buffer.length < s.bound ∧
            s' = { s with toSend := rest, buffer := s.buffer ++ [x] })) := by
  unfold prodStep at h
  split at h
  · exact absurd h (by simp)
  · rename_i hpd
    refine ⟨by simpa using hpd, ?_⟩
    split at h
    · rename_i hts
      cases h
      exact Or.inl ⟨hts, rfl⟩
    · rename_i rest hts
      cases h
      exact Or.inr (Or.inl ⟨rest, hts, rfl⟩)
    · rename_i x rest hts
      split at h
      · rename_i hfin
        cases h
        exact Or.inr (Or.inr (Or.inl ⟨x, rest, hts, hfin, rfl⟩))
      · rename_i hfin
        split at h
        · rename_i hlen
          cases h
          exact Or.inr (Or.inr (Or.inr ⟨x, rest, hts, by simpa using hfin, hlen, rfl⟩))
        · exact absurd h (by simp)

/-- Characterization of a `RayonIntoIter::next` call that returns: it pops
the buffer head, or signals disconnection, or (rendezvous channel only)
takes the producer's next item directly. -/
theorem adapterNext_spec {s : State m} {o : Option m} {s' : State m}
    (h : adapterNext s = some (o, s')) :
    (∃ x rest, o = some x ∧ s.buffer = x :: rest ∧ s' = { s with buffer := rest })
      ∨ (o = none ∧ s.producerDone = true ∧ s.buffer = [] ∧ s' = s)
      ∨ (∃ x rest, o = some x ∧ s.buffer = [] ∧ s.producerDone = false ∧ s.bound = 0 ∧
            s.toSend = some x :: rest ∧ s' = { s with toSend := rest }) := by
  unfold adapterNext at h
  split at h
  · rename_i x rest hbuf
    simp only [Option.some.injEq, Prod.mk.injEq] at h
    exact Or.inl ⟨x, rest, h.1.symm, hbuf, h.2.symm⟩
  · rename_i hbuf
    split at h
    · rename_i hpd
      simp only [Option.some.injEq, Prod.mk.injEq] at h
      exact Or.inr (Or.inl ⟨h.1.symm, hpd, hbuf, h.2.symm⟩)
    · rename_i hpd
      split at h
      · rename_i hb0
        split at h
        · rename_i x rest hts
          simp only [Option.some.injEq, Prod.mk.injEq] at h
          exact Or.inr (Or.inr ⟨x, rest, h.1.symm, hbuf, by simpa using hpd, hb0, hts,
            h.2.symm⟩)
        · exact absurd h (by simp)
      · exact absurd h (by simp)

/-- Characterization of an enabled consumer step: the closure returns at
its limit, collects an item the adapter yielded, or returns upon the
adapter signalling disconnection. -/
theorem consStep_spec {s s' : State m} (h : consStep s = some s') :
    s.cons.finished = false ∧
    ((limitReached s.cons = true ∧ s' = { s with cons := { s.cons with finished := true } })
      ∨ (∃ x s₁, limitReached s.cons = false ∧ adapterNext s = some (some x, s₁) ∧
            s' = { s₁ with cons := { s₁.cons with acc := s₁.cons.acc ++ [x] } })
      ∨ (limitReached s.cons = false ∧ adapterNext s = some (none, s) ∧
            s' = { s with cons := { s.cons with finished := true } })) := by
  unfold consStep at h
  split at h
  · exact absurd h (by simp)
  · rename_i hfin
    refine ⟨by simpa using hfin, ?_⟩
    split at h
    · rename_i hlim
      cases h
      exact Or.inl ⟨hlim, rfl⟩
    · rename_i hlim
      split at h
      · rename_i x s₁ han
        cases h
        exact Or.inr (Or.inl ⟨x, s₁, by simpa using hlim, han, rfl⟩)
      · rename_i s₁ han
        cases h
        have hs₁ : s₁ = s := by
          rcases adapterNext_spec han with ⟨x, rest, hx, _⟩ | ⟨_, _, _, he⟩ | ⟨x, rest, hx, _⟩
          · exact absurd hx (by simp)
          · exact he
          · exact absurd hx (by simp)
        subst hs₁
        exact Or.inr (Or.inr ⟨by simpa using hlim, han, rfl⟩)
      · exact absurd h (by simp)

/-- Every enabled producer step strictly decreases the variant measure. -/
theorem prodStep_meas {s s' : State m} (h : prodStep s = some s') : meas s' < meas s := by
  obtain ⟨hpd, hc⟩ := prodStep_spec h
  rcases hc with ⟨hts, he⟩ | ⟨rest, hts, he⟩ | ⟨x, rest, hts, _, he⟩ | ⟨x, rest, hts, _, _, he⟩ <;>
    subst he
  · simp [meas, hpd, hts]
  · simp [meas, hpd, hts]
  · simp [meas, hpd, hts]
  · simp [meas, hpd, hts]
    omega

/-- Every enabled consumer step strictly decreases the variant measure. -/
theorem consStep_meas {s s' : State m} (h : consStep s = some s') : meas s' < meas s := by
  obtain ⟨hfin, hc⟩ := consStep_spec h
  rcases hc with ⟨_, he⟩ | ⟨x, s₁, _, han, he⟩ | ⟨_, han, he⟩
  · subst he
    simp [meas, hfin]
  · subst he
    rcases adapterNext_spec han with ⟨y, rest, hy, hbuf, he₁⟩ | ⟨hy, _, _, _⟩ |
        ⟨y, rest, hy, hbuf, hpd, hb0, hts, he₁⟩
    · subst he₁
      simp [meas, hfin, hbuf]
    · exact absurd hy (by simp)
    · subst he₁
      simp [meas, hfin, hbuf, hts]
  · subst he
    simp [meas, hfin]

/-- Every step of either thread strictly decreases the variant measure:
executions of the call have bounded length. -/
theorem stepRel_meas {s s' : State m} (h : StepRel s s') : meas s' < meas s := by
  cases h with
  | inl h => exact prodStep_meas h
  | inr h => exact consStep_meas h

/-- Once the spawned thread has ended it takes no further step: after the
join, no producer work remains. -/
theorem prodStep_none_of_done {s : State m} (h : s.producerDone = true) : prodStep s = none := by
  simp [prodStep, h]

/-- Once the consumer closure has returned it takes no further step. -/
theorem consStep_none_of_finished {s : State m} (h : s.cons.finished = true) :
    consStep s = none := by
  simp [consStep, h]

/-- In a terminal state neither thread has a pending step. -/
theorem step1_none_of_terminal {s : State m} (h : isTerminal s = true) : step1 s = none := by
  have hb : s.producerDone = true ∧ s.cons.finished = true := by
    simpa [isTerminal] using h
  simp [step1, prodStep_none_of_done hb.1, consStep_none_of_finished hb.2]

/-- Deadlock freedom: in every non-terminal state at least one of the two
threads can act, so the call never gets stuck with both the blocking
`send` and the blocking `recv` waiting on each other. -/
theorem progress {s : State m} (h : isTerminal s = false) : (step1 s).isSome = true := by
  unfold step1
  cases hps : prodStep s with
  | some s₁ => simp
  | none =>
    simp only
    by_cases hpd : s.producerDone = true
    · have hfin : s.cons.finished = false := by
        simp [isTerminal, hpd] at h
        exact h
      rw [consStep, if_neg (by simp [hfin])]
      by_cases hlim : limitReached s.cons = true
      · simp [hlim]
      · cases hbuf : s.buffer with
        | cons x rest => simp [hlim, adapterNext, hbuf]
        | nil => simp [hlim, adapterNext, hbuf, hpd]
    · rw [prodStep, if_neg hpd] at hps
      rcases hts : s.toSend with _ | ⟨o, rest⟩
      · rw [hts] at hps
        simp at hps
      · rw [hts] at hps
        cases o with
        | none => simp at hps
        | some x =>
          simp only at hps
          by_cases hfin : s.cons.finished = true
          · rw [if_pos hfin] at hps
            simp at hps
          · rw [if_neg hfin] at hps
            by_cases hlen : s.buffer.length < s.bound
            · rw [if_pos hlen] at hps
              simp at hps
            · rw [consStep, if_neg hfin]
              by_cases hlim : limitReached s.cons = true
              · simp [hlim]
              · cases hbuf : s.buffer with
                | cons y rest₁ => simp [hlim, adapterNext, hbuf]
                | nil =>
                  have hb0 : s.bound = 0 := by
                    rw [hbuf] at hlen
                    simpa using hlen
                  simp [hlim, adapterNext, hbuf, hpd, hb0, hts]

/-- A canonical-scheduler step is a step of one of the two threads. -/
theorem step1_stepRel {s s' : State m} (h : step1 s = some s') : StepRel s s' := by
  unfold step1 at h
  cases hps : prodStep s with
  | some s₁ =>
    rw [hps] at h
    cases h
    exact Or.inl hps
  | none =>
    rw [hps] at h
    exact Or.inr h

/-- Every state the canonical scheduler passes through is reachable. -/
theorem reach_runAuto (n : Nat) (s : State m) : Reach s (runAuto n s) := by
  induction n generalizing s with
  | zero => exact Relation.ReflTransGen.refl
  | succ n ih =>
    unfold runAuto
    cases hs : step1 s with
    | none => exact Relation.ReflTransGen.refl
    | some s' => exact Relation.ReflTransGen.head (step1_stepRel hs) (ih s')

/-- Termination: once given at least `meas s` scheduling steps, the call
reaches a terminal state — the consumer closure has returned and the
producer thread has been joined. -/
theorem runAuto_terminal {n : Nat} {s : State m} (h : meas s ≤ n) :
    isTerminal (runAuto n s) = true := by
  induction n generalizing s with
  | zero =>
    simp only [runAuto]
    unfold meas at h
    by_cases hpd : s.producerDone = true
    · by_cases hfin : s.cons.finished = true
      · simp [isTerminal, hpd, hfin]
      · rw [if_neg hfin] at h
        omega
    · rw [if_neg hpd] at h
      omega
  | succ n ih =>
    by_cases ht : isTerminal s = true
    · unfold runAuto
      rw [step1_none_of_terminal ht]
      exact ht
    · have hp := progress (show isTerminal s = false by simpa using ht)
      obtain ⟨s', hs'⟩ := Option.isSome_iff_exists.mp hp
      unfold runAuto
      rw [hs']
      apply ih
      have hlt := stepRel_meas (step1_stepRel hs')
      omega

/-- Invariant of one call to `par_bridge` started with capacity `b`,
arrival order `order` and consumer limit `lim`.  `perm` says the channel
discipline neither duplicates nor loses items: collected, buffered and
not-yet-sent items always form the source multiset.  `buf_le` is the
backpressure bound of `sync_channel(b)`.  The remaining fields relate the
flags: a send fails only after the receiver was dropped, the producer
thread ends only by exhaustion, panic or send failure, a panic needs a
panicking item, and a full-drain consumer returns only after the channel
disconnected (so with an empty buffer and a finished producer, and hence
no failed send ever). -/
structure Inv (b : Nat) (order : List (Option m)) (lim : Option Nat) (s : State m) : Prop where
  bound_eq : s.bound = b
  limit_eq : s.cons.limit = lim
  perm : (s.cons.acc ++ s.buffer ++ s.toSend.filterMap id).Perm (order.filterMap id)
  buf_le : s.buffer.length ≤ b
  toSend_mem : ∀ x ∈ s.toSend, x ∈ order
  none_persists : none ∈ order → none ∈ s.toSend
  sendFailed_finished : s.sendFailed = true → s.cons.finished = true
  prodDone_cases : s.producerDone = true →
    s.toSend = [] ∨ s.panicked = true ∨ s.sendFailed = true
  panicked_none : s.panicked = true → none ∈ order
  drain_fin_prodDone : lim = none → s.cons.finished = true → s.producerDone = true
  drain_fin_buf : lim = none → s.cons.finished = true → s.buffer = []
  drain_noFail : lim = none → s.sendFailed = false
  sendFailed_prodDone : s.sendFailed = true → s.producerDone = true

/-- The initial state satisfies the invariant. -/
theorem inv_init (b : Nat) (order : List (Option m)) (lim : Option Nat) :
    Inv b order lim (initState b order lim) where
  bound_eq := rfl
  limit_eq := rfl
  perm := by simp [initState]
  buf_le := by simp [initState]
  toSend_mem := fun x hx => hx
  none_persists := fun hx => hx
  sendFailed_finished := by simp [initState]
  prodDone_cases := by simp [initState]
  panicked_none := by simp [initState]
  drain_fin_prodDone := by simp [initState]
  drain_fin_buf := by simp [initState]
  drain_noFail := by simp [initState]
  sendFailed_prodDone := by simp [initState]

/-- The invariant is preserved by every producer step. -/
theorem inv_prodStep {b : Nat} {order : List (Option m)} {lim : Option Nat} {s s' : State m}
    (hI : Inv b order lim s) (h : prodStep s = some s') : Inv b order lim s' := by
  obtain ⟨hpd, hc⟩ := prodStep_spec h
  rcases hc with ⟨hts, he⟩ | ⟨rest, hts, he⟩ | ⟨x, rest, hts, hfin, he⟩ |
      ⟨x, rest, hts, hfin, hlen, he⟩ <;> subst he
  · exact { hI with
      prodDone_cases := fun _ => Or.inl hts
      drain_fin_prodDone := fun _ _ => rfl
      sendFailed_prodDone := fun _ => rfl }
  · exact { hI with
      prodDone_cases := fun _ => Or.inr (Or.inl rfl)
      panicked_none := fun _ => hI.toSend_mem none (by simp [hts])
      drain_fin_prodDone := fun _ _ => rfl
      sendFailed_prodDone := fun _ => rfl }
  · exact { hI with
      sendFailed_finished := fun _ => hfin
      prodDone_cases := fun _ => Or.inr (Or.inr rfl)
      drain_fin_prodDone := fun _ _ => rfl
      drain_noFail := fun hlim =>
        absurd (hI.drain_fin_prodDone hlim hfin) (by simp [hpd])
      sendFailed_prodDone := fun _ => rfl }
  · refine { hI with
      perm := ?_
      buf_le := ?_
      toSend_mem := ?_
      none_persists := ?_
      prodDone_cases := ?_
      drain_fin_prodDone := ?_
      drain_fin_buf := ?_ }
    · have hp := hI.perm
      rw [hts] at hp
      simpa using hp
    · have := hI.buf_le
      simp only [List.length_append, List.length_cons, List.length_nil]
      have hb := hI.bound_eq
      omega
    · intro y hy
      exact hI.toSend_mem y (by simp [hts, hy])
    · intro hn
      have := hI.none_persists hn
      rw [hts] at this
      simpa using this
    · intro hd
      simp only at hd
      rw [hd] at hpd
      cases hpd
    · intro _ hf
      simp only at hf
      rw [hf] at hfin
      cases hfin
    · intro _ hf
      simp only at hf
      rw [hf] at hfin
      cases hfin

/-- The invariant is preserved by every consumer step. -/
theorem inv_consStep {b : Nat} {order : List (Option m)} {lim : Option Nat} {s s' : State m}
    (hI : Inv b order lim s) (h : consStep s = some s') : Inv b order lim s' := by
  obtain ⟨hfin, hc⟩ := consStep_spec h
  rcases hc with ⟨hlim, he⟩ | ⟨x, s₁, hlim, han, he⟩ | ⟨hlim, han, he⟩
  · subst he
    have hlimne : lim ≠ none := by
      intro hn
      rw [limitReached, hI.limit_eq, hn] at hlim
      cases hlim
    exact { hI with
      sendFailed_finished := fun _ => rfl
      drain_fin_prodDone := fun hn _ => absurd hn hlimne
      drain_fin_buf := fun hn _ => absurd hn hlimne }
  · rcases adapterNext_spec han with ⟨y, rest, hy, hbuf, he₁⟩ | ⟨hy, _, _, _⟩ |
        ⟨y, rest, hy, hbuf, hpd, hb0, hts, he₁⟩
    · cases hy
      subst he₁
      subst he
      refine { hI with
        perm := ?_
        buf_le := ?_
        sendFailed_finished := ?_
        drain_fin_prodDone := ?_
        drain_fin_buf := ?_ }
      · have hp := hI.perm
        rw [hbuf] at hp
        simpa using hp
      · have := hI.buf_le
        rw [hbuf] at this
        simp only [List.length_cons] at this
        simpa using Nat.le_of_succ_le this
      · intro hsf
        exact absurd (hI.sendFailed_finished hsf) (by simp [hfin])
      · intro _ hf
        simp only at hf
        rw [hf] at hfin
        cases hfin
      · intro _ hf
        simp only at hf
        rw [hf] at hfin
        cases hfin
    · exact absurd hy (by simp)
    · cases hy
      subst he₁
      subst he
      refine { hI with
        perm := ?_
        toSend_mem := ?_
        none_persists := ?_
        sendFailed_finished := ?_
        prodDone_cases := ?_
        drain_fin_prodDone := ?_
        drain_fin_buf := ?_ }
      · have hp := hI.perm
        rw [hts, hbuf] at hp
        simpa [hbuf] using hp
      · intro z hz
        exact hI.toSend_mem z (by simp [hts, hz])
      · intro hn
        have := hI.none_persists hn
        rw [hts] at this
        simpa using this
      · intro hsf
        exact absurd (hI.sendFailed_finished hsf) (by simp [hfin])
      · intro hd
        simp only at hd
        rw [hd] at hpd
        cases hpd
      · intro _ hf
        simp only at hf
        rw [hf] at hfin
        cases hfin
      · intro _ hf
        simp only at hf
        rw [hf] at hfin
        cases hfin
  · subst he
    rcases adapterNext_spec han with ⟨y, rest, hy, _, _⟩ | ⟨_, hpd, hbuf, _⟩ |
        ⟨y, rest, hy, _, _, _, _, _⟩
    · exact absurd hy (by simp)
    · exact { hI with
        sendFailed_finished := fun _ => rfl
        drain_fin_prodDone := fun _ _ => hpd
        drain_fin_buf := fun _ _ => hbuf }
    · exact absurd hy (by simp)

/-- The invariant is preserved by every step of either thread. -/
theorem inv_step {b : Nat} {order : List (Option m)} {lim : Option Nat} {s s' : State m}
    (hI : Inv b order lim s) (h : StepRel s s') : Inv b order lim s' := by
  cases h with
  | inl h => exact inv_prodStep hI h
  | inr h => exact inv_consStep hI h

/-- Every state reachable during the call satisfies the invariant. -/
theorem inv_reach {b : Nat} {order : List (Option m)} {lim : Option Nat} {s : State m}
    (h : Reach (initState b order lim) s) : Inv b order lim s := by
  induction h with
  | refl => exact inv_init b order lim
  | tail _ hstep ih => exact inv_step ih hstep

/-- A terminal state is one where both threads are done. -/
theorem isTerminal_iff {s : State m} :
    isTerminal s = true ↔ s.producerDone = true ∧ s.cons.finished = true := by
  simp [isTerminal]

/-- If no per-item computation panics, no reachable state is panicked. -/
theorem reach_no_panic {b : Nat} {order : List (Option m)} {lim : Option Nat} {s : State m}
    (hno : (none : Option m) ∉ order) (h : Reach (initState b order lim) s) :
    s.panicked = false := by
  have hI := inv_reach h
  cases hpk : s.panicked with
  | false => rfl
  | true => exact absurd (hI.panicked_none hpk) hno

/-- When the consumer drains the adapter to exhaustion and no item panics,
a completed call has flushed everything: nothing is left unsent or
buffered, no send failed, and the collected list is the source multiset. -/
theorem terminal_drain_acc {b : Nat} {order : List (Option m)} {s : State m}
    (hno : (none : Option m) ∉ order)
    (h : Reach (initState b order none) s) (ht : isTerminal s = true) :
    s.cons.acc.Perm (order.filterMap id) ∧ s.buffer = [] ∧ s.toSend = [] := by
  have hI := inv_reach h
  obtain ⟨hpd, hfin⟩ := isTerminal_iff.mp ht
  have hbuf : s.buffer = [] := hI.drain_fin_buf rfl hfin
  have hsf : s.sendFailed = false := hI.drain_noFail rfl
  have hpk : s.panicked = false := reach_no_panic hno h
  have hts : s.toSend = [] := by
    rcases hI.prodDone_cases hpd with h1 | h1 | h1
    · exact h1
    · rw [hpk] at h1
      cases h1
    · rw [hsf] at h1
      cases h1
  have hp := hI.perm
  rw [hbuf, hts] at hp
  exact ⟨by simpa using hp, hbuf, hts⟩

/-- When the consumer drains fully and some per-item computation panics,
every completed call has recorded the panic. -/
theorem terminal_drain_panicked {b : Nat} {order : List (Option m)} {s : State m}
    (hn : (none : Option m) ∈ order)
    (h : Reach (initState b order none) s) (ht : isTerminal s = true) :
    s.panicked = true := by
  have hI := inv_reach h
  obtain ⟨hpd, _⟩ := isTerminal_iff.mp ht
  have hts : s.toSend ≠ [] := by
    intro he
    have := hI.none_persists hn
    rw [he] at this
    simp at this
  have hsf : s.sendFailed = false := hI.drain_noFail rfl
  rcases hI.prodDone_cases hpd with h1 | h1 | h1
  · exact absurd h1 hts
  · exact h1
  · rw [hsf] at h1
    cases h1

/-- A completed full-drain call on a panic-free source arriving in order
`order`, a permutation of the source `items`, collects a permutation of
`items`. -/
theorem drain_acc_perm_items {b : Nat} {items order : List m} (hperm : order.Perm items)
    {s : State m} (hr : Reach (initState b (order.map some) none) s)
    (ht : isTerminal s = true) : s.cons.acc.Perm items := by
  have hno : (none : Option m) ∉ order.map some := by simp
  have hd := terminal_drain_acc hno hr ht
  have hfm : (order.map some).filterMap id = order := by
    simp [List.filterMap_map]
  have h1 := hd.1
  rw [hfm] at h1
  exact h1.trans hperm

/-- Claim C1: for every bound `b ≥ 0` and every parallel source of `n`
items, if the consumer pulls the adapter to exhaustion then every
completed interleaving of the call delivers exactly `n` items whose
multiset equals the multiset the parallel source produces (no item
duplicated or lost, order unconstrained); and the call does complete. -/
theorem full_drain_delivers_exactly_source (b : Nat) (items order : List m)
    (hperm : order.Perm items) :
    (∀ s : State m, Reach (initState b (order.map some) none) s → isTerminal s = true →
      s.cons.acc.Perm items ∧ s.cons.acc.length = items.length) ∧
    isTerminal (runAuto (meas (initState b (order.map some) none))
      (initState b (order.map some) none)) = true := by
  constructor
  · intro s hr ht
    have hacc := drain_acc_perm_items hperm hr ht
    exact ⟨hacc, hacc.length_eq⟩
  · exact runAuto_terminal le_rfl

/-- Witness for C1 at a concrete input: bound 2, source 1,2,3 arriving as
2,1,3; the completed call collected a permutation of the source. -/
theorem full_drain_delivers_exactly_source_witness :
    ([2, 1, 3] : List Nat).Perm [1, 2, 3] ∧
    (runAuto (meas (initState 2 ([2, 1, 3].map some) none))
      (initState 2 ([2, 1, 3].map some) none)).cons.acc.Perm [1, 2, 3] := by
  refine ⟨by decide, ?_⟩
  exact ((full_drain_delivers_exactly_source 2 [1, 2, 3] [2, 1, 3] (by decide)).1 _
    (reach_runAuto _ _) (by decide)).1

/-- Claim C9: two completed full-drain runs with the same bound and the
same deterministic source yield equal multisets of delivered items, for
any two arrival orders and any two interleavings. -/
theorem runs_yield_equal_multisets (b : Nat) (items order₁ order₂ : List m)
    (h₁ : order₁.Perm items) (h₂ : order₂.Perm items) :
    ∀ s₁ s₂ : State m, Reach (initState b (order₁.map some) none) s₁ → isTerminal s₁ = true →
      Reach (initState b (order₂.map some) none) s₂ → isTerminal s₂ = true →
      s₁.cons.acc.Perm s₂.cons.acc := by
  intro s₁ s₂ hr₁ ht₁ hr₂ ht₂
  exact (drain_acc_perm_items h₁ hr₁ ht₁).trans (drain_acc_perm_items h₂ hr₂ ht₂).symm

/-- Witness for C9: two full-drain runs of the source 1,2 with bound 1,
arriving as 1,2 and as 2,1, collect equal multisets. -/
theorem runs_yield_equal_multisets_witness :
    ([1, 2] : List Nat).Perm [1, 2] ∧ ([2, 1] : List Nat).Perm [1, 2] ∧
    (runAuto (meas (initState 1 ([1, 2].map some) none))
        (initState 1 ([1, 2].map some) none)).cons.acc.Perm
      (runAuto (meas (initState 1 ([2, 1].map some) none))
        (initState 1 ([2, 1].map some) none)).cons.acc := by
  refine ⟨by decide, by decide, ?_⟩
  exact runs_yield_equal_multisets 1 [1, 2] [1, 2] [2, 1] (by decide) (by decide) _ _
    (reach_runAuto _ _) (by decide) (reach_runAuto _ _) (by decide)

/-- Claim C2: if a per-item computation inside the parallel work panics,
the call panics to its caller instead of returning a partial result: in
every completed full-drain interleaving the panic has been captured, the
consumer closure has finished first, and the joined scope re-raises the
panic; the canonical run indeed surfaces it. -/
theorem panic_propagates_to_caller (b : Nat) (order : List (Option m))
    (hn : (none : Option m) ∈ order) (g : List m → r) :
    (∀ s : State m, Reach (initState b order none) s → isTerminal s = true →
      s.panicked = true ∧ s.cons.finished = true ∧ bridgeReturn g s = Except.error ()) ∧
    par_bridge b order none g = Except.error () := by
  have hmain : ∀ s : State m, Reach (initState b order none) s → isTerminal s = true →
      s.panicked = true ∧ s.cons.finished = true ∧ bridgeReturn g s = Except.error () := by
    intro s hr ht
    have hpk := terminal_drain_panicked hn hr ht
    exact ⟨hpk, (isTerminal_iff.mp ht).2, by simp [bridgeReturn, hpk]⟩
  refine ⟨hmain, ?_⟩
  unfold par_bridge
  exact (hmain _ (reach_runAuto _ _) (runAuto_terminal le_rfl)).2.2

/-- Witness for C2: with bound 1 and a source whose second item panics,
the call returns the re-raised panic, not a value. -/
theorem panic_propagates_to_caller_witness :
    ((none : Option Nat) ∈ [some 1, none]) ∧
    par_bridge 1 [some (1 : Nat), none] none (fun l => l) = Except.error () := by
  refine ⟨by decide, ?_⟩
  exact (panic_propagates_to_caller 1 [some (1 : Nat), none]
    (by decide) (fun l => l)).2

/-- Claim C3: on every exit path — normal return, early return of the
consumer, or a panic unwinding the producer — the spawned producer thread
is joined before `par_bridge` returns: every completed state has the
producer done with no step left for either thread, and the call completes
for every bound, arrival order (panics included) and consumer limit. -/
theorem producer_joined_before_return (b : Nat) (order : List (Option m)) (lim : Option Nat) :
    (∀ s : State m, Reach (initState b order lim) s → isTerminal s = true →
      s.producerDone = true ∧ prodStep s = none ∧ consStep s = none) ∧
    isTerminal (runAuto (meas (initState b order lim)) (initState b order lim)) = true := by
  constructor
  · intro s _ ht
    obtain ⟨hpd, hfin⟩ := isTerminal_iff.mp ht
    exact ⟨hpd, prodStep_none_of_done hpd, consStep_none_of_finished hfin⟩
  · exact runAuto_terminal le_rfl

/-- Witness for C3 on an exit path combining a panicking item, bound 0
and an early-stopping consumer: the run completes with the producer
joined. -/
theorem producer_joined_before_return_witness :
    isTerminal (runAuto (meas (initState 0 [some (1 : Nat), none] (some 0)))
      (initState 0 [some (1 : Nat), none] (some 0))) = true ∧
    (runAuto (meas (initState 0 [some (1 : Nat), none] (some 0)))
      (initState 0 [some (1 : Nat), none] (some 0))).producerDone = true := by
  refine ⟨(producer_joined_before_return 0 [some (1 : Nat), none] (some 0)).2, ?_⟩
  exact ((producer_joined_before_return 0 [some (1 : Nat), none] (some 0)).1 _
    (reach_runAuto _ _) (by decide)).1

/-- Claim C4: with a consumer that pulls only `k < n` items and returns,
the call still terminates — every step of either thread strictly
decreases the variant, so executions are bounded, and the canonical run
completes — and from the first failed send on, the producer task is done
and requests nothing further from the parallel engine. -/
theorem early_stop_no_deadlock (b k : Nat) (items : List m) (hk : k < items.length) :
    isTerminal (runAuto (meas (initState b (items.map some) (some k)))
      (initState b (items.map some) (some k))) = true ∧
    (∀ s : State m, Reach (initState b (items.map some) (some k)) s → s.sendFailed = true →
      s.producerDone = true ∧ prodStep s = none) ∧
    (∀ s s' : State m, StepRel s s' → meas s' < meas s) := by
  refine ⟨runAuto_terminal le_rfl, ?_, fun _ _ h => stepRel_meas h⟩
  intro s hr hsf
  have hpd := (inv_reach hr).sendFailed_prodDone hsf
  exact ⟨hpd, prodStep_none_of_done hpd⟩

/-- Witness for C4: bound 1, source 1,2,3, consumer taking one item; the
run completes, and its failed send left the producer done. -/
theorem early_stop_no_deadlock_witness :
    (1 < ([1, 2, 3] : List Nat).length) ∧
    (runAuto (meas (initState 1 ([1, 2, 3].map some) (some 1)))
      (initState 1 ([1, 2, 3].map some) (some 1))).sendFailed = true ∧
    (runAuto (meas (initState 1 ([1, 2, 3].map some) (some 1)))
      (initState 1 ([1, 2, 3].map some) (some 1))).producerDone = true ∧
    isTerminal (runAuto (meas (initState 1 ([1, 2, 3].map some) (some 1)))
      (initState 1 ([1, 2, 3].map some) (some 1))) = true := by
  refine ⟨by decide, by decide, ?_,
    (early_stop_no_deadlock 1 1 ([1, 2, 3] : List Nat) (by decide)).1⟩
  exact ((early_stop_no_deadlock 1 1 ([1, 2, 3] : List Nat)
    (by decide)).2.1 _ (reach_runAuto _ _) (by decide)).1

/-- Claim C5: at no point during the call does the number of items
buffered in the channel exceed the bound, for any arrival order, consumer
limit and interleaving. -/
theorem buffered_never_exceeds_bound {b : Nat} {order : List (Option m)} {lim : Option Nat} :
    ∀ s : State m, Reach (initState b order lim) s → s.buffer.length ≤ b :=
  fun _ h => (inv_reach h).buf_le

/-- Witness for C5: three scheduling steps into a bound-1 run, the buffer
holds at most one item. -/
theorem buffered_never_exceeds_bound_witness :
    (runAuto 3 (initState 1 ([5, 6, 7].map some) none)).buffer.length ≤ 1 :=
  buffered_never_exceeds_bound _ (reach_runAuto 3 (initState 1 ([(5 : Nat), 6, 7].map some) none))

/-- Claim C6: bound 0 is a legal argument and means synchronous
rendezvous: no reachable state of the call ever holds a buffered item,
and with a full-drain consumer the call still completes, every completed
interleaving delivering the same source multiset as any positive bound
would. -/
theorem bound_zero_rendezvous (items order : List m) (hperm : order.Perm items) :
    (∀ s : State m, Reach (initState 0 (order.map some) none) s → s.buffer = []) ∧
    isTerminal (runAuto (meas (initState 0 (order.map some) none))
      (initState 0 (order.map some) none)) = true ∧
    (∀ s : State m, Reach (initState 0 (order.map some) none) s → isTerminal s = true →
      s.cons.acc.Perm items ∧ s.cons.acc.length = items.length) := by
  refine ⟨?_, runAuto_terminal le_rfl, ?_⟩
  · intro s hr
    have hle := (inv_reach hr).buf_le
    exact List.eq_nil_of_length_eq_zero (Nat.le_zero.mp hle)
  · intro s hr ht
    have hacc := drain_acc_perm_items hperm hr ht
    exact ⟨hacc, hacc.length_eq⟩

/-- Witness for C6: rendezvous run over the source 1,2,3 completes and
collects a permutation of the source. -/
theorem bound_zero_rendezvous_witness :
    ([3, 1, 2] : List Nat).Perm [1, 2, 3] ∧
    isTerminal (runAuto (meas (initState 0 ([3, 1, 2].map some) none))
      (initState 0 ([3, 1, 2].map some) none)) = true ∧
    (runAuto (meas (initState 0 ([3, 1, 2].map some) none))
      (initState 0 ([3, 1, 2].map some) none)).cons.acc.Perm [1, 2, 3] := by
  refine ⟨by decide, (bound_zero_rendezvous [1, 2, 3] [3, 1, 2] (by decide)).2.1, ?_⟩
  exact ((bound_zero_rendezvous ([1, 2, 3] : List Nat) [3, 1, 2] (by decide)).2.2 _
    (reach_runAuto _ _) (by decide)).1

/-- Claim C7: `par_bridge` returns exactly the value the consumer closure
returns: on a panic-free source, every completed interleaving hands back
`Except.ok` of what `f` computed from the adapter, and the whole
synchronous call evaluates to that value. -/
theorem returns_consumer_value (b : Nat) (items : List m) (lim : Option Nat) (g : List m → r) :
    (∀ s : State m, Reach (initState b (items.map some) lim) s → isTerminal s = true →
      bridgeReturn g s = Except.ok (g s.cons.acc)) ∧
    par_bridge b (items.map some) lim g =
      Except.ok (g (runAuto (meas (initState b (items.map some) lim))
        (initState b (items.map some) lim)).cons.acc) := by
  have hmain : ∀ s : State m, Reach (initState b (items.map some) lim) s →
      isTerminal s = true → bridgeReturn g s = Except.ok (g s.cons.acc) := by
    intro s hr _
    have hpk : s.panicked = false := reach_no_panic (by simp) hr
    simp [bridgeReturn, hpk]
  exact ⟨hmain, hmain _ (reach_runAuto _ _) (runAuto_terminal le_rfl)⟩

/-- Witness for C7: collecting the lengths of a three-item run returns
exactly what the consumer computed. -/
theorem returns_consumer_value_witness :
    par_bridge 2 ([4, 5, 6].map some) none (fun l : List Nat => l.length) =
      Except.ok (runAuto (meas (initState 2 ([4, 5, 6].map some) none))
        (initState 2 ([(4 : Nat), 5, 6].map some) none)).cons.acc.length :=
  (returns_consumer_value 2 [4, 5, 6] none (fun l : List Nat => l.length)).2

/-- Claim C8: a failed send caused by the dropped receiver is only the
internal stop-producing signal: it is never a panic, and every completed
early-terminated call still returns the consumer's value normally —
early termination is a normal outcome, not a fault. -/
theorem send_failure_not_surfaced (b k : Nat) (items : List m) (g : List m → r) :
    (∀ s : State m, Reach (initState b (items.map some) (some k)) s → s.sendFailed = true →
      s.panicked = false ∧ bridgeReturn g s = Except.ok (g s.cons.acc)) ∧
    par_bridge b (items.map some) (some k) g =
      Except.ok (g (runAuto (meas (initState b (items.map some) (some k)))
        (initState b (items.map some) (some k))).cons.acc) := by
  constructor
  · intro s hr _
    have hpk : s.panicked = false := reach_no_panic (by simp) hr
    exact ⟨hpk, by simp [bridgeReturn, hpk]⟩
  · have hpk : (runAuto (meas (initState b (items.map some) (some k)))
        (initState b (items.map some) (some k))).panicked = false :=
      reach_no_panic (by simp) (reach_runAuto _ _)
    simp [par_bridge, bridgeReturn, hpk]

/-- Witness for C8: the bound-1 take-1 run over 1,2,3 reaches a failed
send, yet the call returns the collected value, no error. -/
theorem send_failure_not_surfaced_witness :
    (runAuto (meas (initState 1 ([1, 2, 3].map some) (some 1)))
      (initState 1 ([(1 : Nat), 2, 3].map some) (some 1))).sendFailed = true ∧
    (runAuto (meas (initState 1 ([1, 2, 3].map some) (some 1)))
      (initState 1 ([(1 : Nat), 2, 3].map some) (some 1))).panicked = false := by
  refine ⟨by decide, ?_⟩
  exact ((send_failure_not_surfaced 1 1 ([1, 2, 3] : List Nat)
    (fun l => l)).1 _ (reach_runAuto _ _) (by decide)).1

/-- Claim C10: with an empty parallel source the consumer is still run:
nothing is ever buffered or collected, once the producer thread has ended
every `next()` call on the adapter returns `None` without changing the
state (so every subsequent call returns `None` as well, rather than
blocking forever), the call completes, and it returns the consumer's
value on the empty sequence. -/
theorem empty_source_next_none (b : Nat) (lim : Option Nat) (g : List m → r) :
    (∀ s : State m, Reach (initState b ([] : List (Option m)) lim) s →
      s.buffer = [] ∧ s.cons.acc = [] ∧
      (s.producerDone = true → adapterNext s = some (none, s))) ∧
    isTerminal (runAuto (meas (initState b ([] : List (Option m)) lim))
      (initState b ([] : List (Option m)) lim)) = true ∧
    par_bridge b ([] : List (Option m)) lim g = Except.ok (g []) := by
  have hmain : ∀ s : State m, Reach (initState b ([] : List (Option m)) lim) s →
      s.buffer = [] ∧ s.cons.acc = [] ∧
      (s.producerDone = true → adapterNext s = some (none, s)) := by
    intro s hr
    have hI := inv_reach hr
    have hp := hI.perm
    simp only [List.filterMap_nil] at hp
    have hnil := hp.eq_nil
    rw [List.append_assoc] at hnil
    obtain ⟨hacc, hrest⟩ := List.append_eq_nil.mp hnil
    obtain ⟨hbuf, _⟩ := List.append_eq_nil.mp hrest
    refine ⟨hbuf, hacc, fun hpd => ?_⟩
    unfold adapterNext
    rw [hbuf, hpd]
    simp
  refine ⟨hmain, runAuto_terminal le_rfl, ?_⟩
  have hpk : (runAuto (meas (initState b ([] : List (Option m)) lim))
      (initState b ([] : List (Option m)) lim)).panicked = false :=
    reach_no_panic (by simp) (reach_runAuto _ _)
  have hacc := (hmain (runAuto (meas (initState b ([] : List (Option m)) lim))
      (initState b ([] : List (Option m)) lim)) (reach_runAuto _ _)).2.1
  simp [par_bridge, bridgeReturn, hpk, hacc]

/-- Witness for C10: the empty-source call with bound 3 and a full-drain
consumer returns the consumer's value on the empty list, and the
disconnected adapter keeps answering `None`. -/
theorem empty_source_next_none_witness :
    par_bridge 3 ([] : List (Option Nat)) none (fun l => l.length) = Except.ok 0 ∧
    adapterNext (runAuto (meas (initState 3 ([] : List (Option Nat)) none))
        (initState 3 ([] : List (Option Nat)) none)) =
      some (none, runAuto (meas (initState 3 ([] : List (Option Nat)) none))
        (initState 3 ([] : List (Option Nat)) none)) := by
  constructor
  · exact (empty_source_next_none 3 none (fun l : List Nat => l.length)).2.2
  · exact ((empty_source_next_none 3 none
      (fun l : List Nat => l.length)).1 _ (reach_runAuto _ _)).2.2 (by decide)

end RayonParBridge
